import Mathlib

/-!
Verification development for the k6provider repository: a local artifact
cache and provisioning pipeline.  The definitions below are shallow
embeddings of the Go sources: the `Provider.GetBinary` orchestration and
`validateChecksum`, the LRU `pruner`, the unix `dirLock` and windows
`fileLock` backends, and the retrying downloader.  File contents are
modelled as lists of bytes (`List Nat`), the sha256 hex digest as an
uninterpreted function parameter, timestamps and sizes as integers, and
every OS call (stat, flock, CreateFile, HTTP GET, ...) as an explicit
oracle argument giving that call's outcome.
-/

namespace K6Provider

/-! ## Filesystem model

The cache directory `binDir` maps artifact IDs to the content of the
`<binDir>/<id>/k6` file.  An association list keeps the model executable.
`fsErase` models `os.RemoveAll` of the entry directory; `fsInsert` models
writing to the opened binary file.
-/

def fsLookup (fs : List (String × List Nat)) (key : String) : Option (List Nat) :=
  match fs with
  | [] => none
  | (k, v) :: rest => if k = key then some v else fsLookup rest key

def fsErase (fs : List (String × List Nat)) (key : String) : List (String × List Nat) :=
  match fs with
  | [] => []
  | (k, v) :: rest => if k = key then fsErase rest key else (k, v) :: fsErase rest key

def fsInsert (fs : List (String × List Nat)) (key : String) (v : List Nat) :
    List (String × List Nat) :=
  (key, v) :: fsErase fs key

/-- The file is opened with `os.O_WRONLY|os.O_CREATE` (no `O_TRUNC`), so the
downloaded bytes are written over the existing content starting at offset 0:
a longer stale file keeps its trailing bytes. -/
def overwriteBytes (old new : List Nat) : List Nat :=
  new ++ old.drop new.length

/-! ## Provider data model (prunner_windows.go, provider segment) -/

/-- `const k6Binary = "k6"`. -/
def k6Binary : String := "k6"

structure Artifact where
  id : String
  url : String
  dependencies : List (String × String)
  platform : String
  checksum : String
deriving DecidableEq

structure K6Binary where
  path : String
  dependencies : List (String × String)
  checksum : String
  cached : Bool
  downloadURL : String
deriving DecidableEq

/-- The errors `GetBinary` can produce past the build step: `ErrBinary` and
`ErrDownload`, each wrapping its cause (`NewWrappedError`). -/
inductive ProviderError where
  | binary (cause : String)
  | download (cause : String)
deriving DecidableEq

/-- `filepath.Join(p.binDir, artifact.ID, k6Binary)`. -/
def binPath (binDir id : String) : String :=
  binDir ++ "/" ++ id ++ "/" ++ k6Binary

/-- `validateChecksum` opens the file and streams it through sha256; any
error accessing the file yields `false`, otherwise the hex digest is
compared with the expected checksum.  The digest function `hash` is an
uninterpreted parameter; a missing file is the open-error case. -/
def validateChecksum (hash : List Nat → String) (content : Option (List Nat))
    (expectedChecksum : String) : Bool :=
  match content with
  | none => false
  | some c => hash c == expectedChecksum

/-- The miss path of `GetBinary`: `os.MkdirAll`, `os.OpenFile`, then
`downloader.download` whose outcome is the oracle `dl` (`.ok content` =
the downloaded bytes, `.error` = any download failure).  On failure the
entry directory is removed (`os.RemoveAll(artifactDir)`) and the error is
wrapped with `ErrDownload`; on success the bytes are written over the
destination file and the result is returned with `Cached=false`. -/
def materialize (binDir : String) (fs : List (String × List Nat)) (art : Artifact)
    (dl : Except String (List Nat)) :
    List (String × List Nat) × Except ProviderError K6Binary :=
  match dl with
  | .error e => (fsErase fs art.id, .error (.download e))
  | .ok content =>
    let written :=
      match fsLookup fs art.id with
      | some old => overwriteBytes old content
      | none => content
    (fsInsert fs art.id written,
     .ok { path := binPath binDir art.id, dependencies := art.dependencies,
           checksum := art.checksum, cached := false, downloadURL := art.url })

/-- `Provider.GetBinary` after the build service resolved `art`:
stat the cache entry; if it exists and `validateChecksum` succeeds return
the cached result (`Cached=true`), otherwise fall through to
`materialize`.  Returns the updated filesystem and the call's result. -/
def getBinary (binDir : String) (hash : List Nat → String)
    (fs : List (String × List Nat)) (art : Artifact)
    (dl : Except String (List Nat)) :
    List (String × List Nat) × Except ProviderError K6Binary :=
  match fsLookup fs art.id with
  | some c =>
    if validateChecksum hash (some c) art.checksum then
      (fs, .ok { path := binPath binDir art.id, dependencies := art.dependencies,
                 checksum := art.checksum, cached := true, downloadURL := "" })
    else
      materialize binDir fs art dl
  | none => materialize binDir fs art dl

/-! ## Downloader with bounded retries (modelled from the spec) -/

/-- Modelled from the spec: the built-in default for the number of download
attempts.  The retrying download routine that `Provider.GetBinary` invokes
as `p.downloader.download(ctx, artifact.URL, artifact.Checksum, target)` is
missing from the provided sources — only that caller and an earlier,
non-retrying `downloader.download(ctx, from, dest)` appear — so the retry
policy is modelled from the spec: a bounded number of attempts where a
non-positive configured value means a sensible built-in positive default.
The spec fixes no numeric value; `3` stands for that positive default. -/
def defaultDownloadRetries : Nat := 3

/-- Modelled from the spec: the number of attempts actually performed for a
configured retry cap `m`: a non-positive configuration means the built-in
default, an explicit positive value caps attempts (a value of exactly `1`
meaning a single attempt with no retries). -/
def effectiveRetries (m : Int) : Nat :=
  if m ≤ 0 then defaultDownloadRetries else m.toNat

/-- A download failure surfaced to the caller, wrapping its cause. -/
inductive DownloadError where
  | download (cause : String)
deriving DecidableEq

/-- Modelled from the spec: perform up to `n` attempts starting with attempt
number `i`; `source i` is the outcome of the `i`-th attempt (network error,
non-success status or checksum mismatch all count as failed attempts).  A
failed attempt is retried while attempts remain; when attempts are
exhausted the last underlying failure is returned. -/
def attemptDownload (source : Nat → Except String Unit) : Nat → Nat → Except String Unit
  | _, 0 => .error "no attempts"
  | i, 1 => source i
  | i, n + 2 =>
    match source i with
    | .ok _ => .ok ()
    | .error _ => attemptDownload source (i + 1) (n + 1)

/-- Modelled from the spec: the download entry point with a configured retry
cap `m`; exhausting the attempts surfaces the Download error wrapping the
last underlying failure. -/
def downloadWithRetries (m : Int) (source : Nat → Except String Unit) :
    Except DownloadError Unit :=
  match attemptDownload source 0 (effectiveRetries m) with
  | .ok _ => .ok ()
  | .error e => .error (.download e)

/-- A download source that fails its first `n` attempts (attempt `i` failing
with `msg i`) and succeeds afterwards. -/
def failingSource (n : Nat) (msg : Nat → String) : Nat → Except String Unit :=
  fun i => if i < n then .error (msg i) else .ok ()

/-! ## Pruner (pruner segment of the unix sources)

`pruner.prune` is embedded as a function of the pruner's persistent state
(`hwm`, `pruneInterval`, `lastPrune`), the current clock value, the
outcome of `os.ReadDir(p.dir)`, and an oracle giving each
`os.RemoveAll(target.path)` call's outcome.  The in-process
`pruneLock.TryLock` guard concerns only intra-process thread interleaving
and always succeeds in this single-threaded embedding.  Entry directories
are identified by their directory name inside the cache directory.
-/

deriving instance DecidableEq for Except

/-- A `os.ReadDir` entry of the cache directory: its name, whether it is a
directory, and the outcome of `os.Stat(<dir>/<name>/k6)`
(size and modification time on success). -/
structure DirEntry where
  name : String
  isDir : Bool
  stat : Except String (Int × Int)
deriving DecidableEq

/-- A prune candidate: the entry directory name, the binary's size and its
modification timestamp. -/
structure PruneTarget where
  name : String
  size : Int
  timestamp : Int
deriving DecidableEq

structure PrunerState where
  hwm : Int
  pruneInterval : Int
  lastPrune : Int
deriving DecidableEq

/-- Outcome of a `prune` call: success, the wrapped `os.ReadDir` failure
(`fmt.Errorf("%w: %w", ErrPruningCache, err)`), or the final aggregate
`errors.Join(ErrPruningCache, causes...)` when the mark was not reached. -/
inductive PruneResult where
  | ok
  | readDirFailed (cause : String)
  | cannotPrune (causes : List String)
deriving DecidableEq

/-- The enumeration loop: skip entries that are not directories, collect
stat errors as soft failures, and accumulate the cache size and the prune
targets.  Returns `(stat errors, cache size, targets)` in source order. -/
def scanEntries : List DirEntry → List String × Int × List PruneTarget
  | [] => ([], 0, [])
  | e :: rest =>
    let s := scanEntries rest
    if e.isDir then
      match e.stat with
      | .error err => (err :: s.1, s.2.1, s.2.2)
      | .ok (sz, t) =>
        (s.1, sz + s.2.1, { name := e.name, size := sz, timestamp := t } :: s.2.2)
    else s

/-- Candidate order used by `sort.Slice(..., timestamp.Before)`. -/
def timeLE (a b : PruneTarget) : Prop := a.timestamp ≤ b.timestamp

instance : DecidableRel timeLE := fun a b => Int.decLe a.timestamp b.timestamp

instance : IsTotal PruneTarget timeLE :=
  ⟨fun a b => Int.le_total a.timestamp b.timestamp⟩

instance : IsTrans PruneTarget timeLE :=
  ⟨fun _ _ _ hab hbc => le_trans hab hbc⟩

/-- The sort of the candidates by ascending timestamp. -/
def sortByTime (l : List PruneTarget) : List PruneTarget :=
  List.insertionSort timeLE l

/-- The deletion loop: for each candidate in order, attempt
`os.RemoveAll`; on failure collect the error and continue; on success
subtract the candidate's size from the running total and stop as soon as
the total is at or below the mark.  Returns the deleted candidates, the
collected removal errors, and whether the mark was reached. -/
def pruneLoop (hwm : Int) (removeRes : String → Option String) :
    Int → List PruneTarget → List PruneTarget × List String × Bool
  | _, [] => ([], [], false)
  | size, t :: rest =>
    match removeRes t.name with
    | some e =>
      let r := pruneLoop hwm removeRes size rest
      (r.1, e :: r.2.1, r.2.2)
    | none =>
      if size - t.size ≤ hwm then ([t], [], true)
      else
        let r := pruneLoop hwm removeRes (size - t.size) rest
        (t :: r.1, r.2.1, r.2.2)

/-- `pruner.prune`: a high-water-mark of exactly 0 disables pruning; a call
inside the cooldown window is a no-op; otherwise `lastPrune` is set to the
current time, the directory is enumerated, and if the cache size exceeds
the mark the candidates are deleted oldest first.  Returns the new state,
the deleted candidates, and the call's result. -/
def prune (p : PrunerState) (now : Int) (readDir : Except String (List DirEntry))
    (removeRes : String → Option String) :
    PrunerState × List PruneTarget × PruneResult :=
  if p.hwm = 0 then (p, [], .ok)
  else if now - p.lastPrune < p.pruneInterval then (p, [], .ok)
  else
    let p' := { p with lastPrune := now }
    match readDir with
    | .error e => (p', [], .readDirFailed e)
    | .ok entries =>
      let s := scanEntries entries
      if s.2.1 ≤ p.hwm then (p', [], .ok)
      else
        let r := pruneLoop p.hwm removeRes s.2.1 (sortByTime s.2.2)
        if r.2.2 then (p', r.1, .ok)
        else (p', r.1, .cannotPrune (s.1 ++ r.2.1))

/-- `pruner.touch`: only when the high-water-mark is strictly positive does
it update the binary's access time (`os.Chtimes`); the returned value is
the path whose times were updated, `none` when the filesystem was left
unchanged. -/
def touch (p : PrunerState) (binaryPath : String) : Option String :=
  if 0 < p.hwm then some binaryPath else none

/-- Total size of a list of prune candidates. -/
def sumSizes (l : List PruneTarget) : Int :=
  (l.map (·.size)).sum

/-! ## Directory locks: unix `dirLock` and windows `fileLock`

Both backends guard a well-known lock file inside the cache directory and
keep at most one OS handle.  The OS calls (`syscall.Open`/`syscall.Flock`
on unix; `UTF16PtrFromString`/`CreateFile`/`LockFile`/`UnlockFile` on
windows) are oracles.  The in-process `sync.Mutex` each handle holds only
serialises threads of one process and is implicit in this single-threaded
embedding.
-/

/-- The well-known lock file name used by `newFileLock`:
`filepath.Join(path, "k6provider.lock")`. -/
def lockFileName : String := "k6provider.lock"

/-- The errors of the locking package: `errLocked`, `errLockFailed` and
`errUnLockFailed` (the latter two wrapping their cause), plus the untyped
error the windows backend returns when the lock path cannot be converted
to UTF-16. -/
inductive LockError where
  | locked
  | lockFailed (cause : String)
  | unlockFailed (cause : String)
  | untyped (cause : String)
deriving DecidableEq

/-- Unix `dirLock`: the lock file path and the held file descriptor
(`-1` when the handle does not hold the lock). -/
structure DirLock where
  lockFile : String
  fd : Int
deriving DecidableEq

/-- `newFileLock` (unix): lock file `<path>/k6provider.lock`, no fd. -/
def newFileLock (path : String) : DirLock :=
  { lockFile := path ++ "/" ++ lockFileName, fd := -1 }

/-- Outcome of `syscall.Flock(fd, LOCK_EX|LOCK_NB)`: success, `EWOULDBLOCK`
(another holder), or any other errno. -/
inductive FlockResult where
  | ok
  | wouldBlock
  | fail (e : String)
deriving DecidableEq

/-- The OS oracle for one unix `lock()` call: the outcome of
`syscall.Open(lockFile, O_RDWR|O_CREAT, 0600)` and of the flock. -/
structure UnixLockSys where
  openResult : Except String Int
  flockResult : FlockResult
deriving DecidableEq

/-- `dirLock.lock`: a held handle is a no-op; an open failure is
`errLockFailed` wrapping the cause; `EWOULDBLOCK` is `errLocked`; any
other flock failure is `errLockFailed`. -/
def dirLockLock (m : DirLock) (sys : UnixLockSys) : DirLock × Option LockError :=
  if m.fd ≠ -1 then (m, none)
  else
    match sys.openResult with
    | .error e => (m, some (.lockFailed e))
    | .ok fd =>
      match sys.flockResult with
      | .ok => ({ m with fd := fd }, none)
      | .wouldBlock => (m, some .locked)
      | .fail e => (m, some (.lockFailed e))

/-- `dirLock.unlock`: an unheld handle is a no-op; otherwise the fd is
closed and reset (deferred, so also on failure) and a failing
`syscall.Flock(fd, LOCK_UN)` yields `errUnLockFailed`. -/
def dirLockUnlock (m : DirLock) (flockUn : Except String Unit) :
    DirLock × Option LockError :=
  if m.fd = -1 then (m, none)
  else
    match flockUn with
    | .error e => ({ m with fd := -1 }, some (.unlockFailed e))
    | .ok _ => ({ m with fd := -1 }, none)

/-- `errnoLocked syscall.Errno = 33`. -/
def errnoLocked : Nat := 33

/-- `syscall.EINVAL`, substituted when the windows error code is 0. -/
def errnoEINVAL : Nat := 22

/-- Outcome of the `LockFile`/`UnlockFile` kernel32 call: success
(`r1 ≠ 0`), or failure with the returned error code `e1`. -/
inductive WinLockCall where
  | ok
  | failErrno (errno : Nat)
deriving DecidableEq

/-- The OS oracle for one windows `lock()` call: the outcome of
`syscall.UTF16PtrFromString(m.lockFile)`, of `syscall.CreateFile` and of
the `LockFile` call. -/
structure WinLockSys where
  utf16Result : Except String Unit
  createResult : Except String Int
  lockResult : WinLockCall
deriving DecidableEq

/-- Windows `fileLock`: the lock file path and the held handle
(`none` = `syscall.InvalidHandle`). -/
structure FileLock where
  lockFile : String
  handle : Option Int
deriving DecidableEq

/-- `newFileLock` (windows): lock file `<path>/k6provider.lock`, invalid
handle. -/
def newWinFileLock (path : String) : FileLock :=
  { lockFile := path ++ "/" ++ lockFileName, handle := none }

/-- `fileLock.lock`: a held handle is a no-op; a failing UTF-16 conversion
of the path returns the raw error untyped (`// TODO return a typed
error`); a `CreateFile` failure is `errLockFailed`; a failing `LockFile`
call is `errLocked` when the error code is 33 and `errLockFailed`
otherwise (error code 0 standing for `EINVAL`). -/
def fileLockLock (m : FileLock) (sys : WinLockSys) : FileLock × Option LockError :=
  match m.handle with
  | some _ => (m, none)
  | none =>
    match sys.utf16Result with
    | .error e => (m, some (.untyped e))
    | .ok _ =>
      match sys.createResult with
      | .error e => (m, some (.lockFailed e))
      | .ok h =>
        match sys.lockResult with
        | .ok => ({ m with handle := some h }, none)
        | .failErrno e =>
          if e = errnoLocked then (m, some .locked)
          else (m, some (.lockFailed (toString (if e = 0 then errnoEINVAL else e))))

/-- `fileLock.unlock`: an unheld handle is a no-op; otherwise the handle is
closed and invalidated (deferred, so also on failure) and a failing
`UnlockFile` call yields `errUnLockFailed`. -/
def fileLockUnlock (m : FileLock) (unlockCall : WinLockCall) :
    FileLock × Option LockError :=
  match m.handle with
  | none => (m, none)
  | some _ =>
    match unlockCall with
    | .ok => ({ m with handle := none }, none)
    | .failErrno e =>
      ({ m with handle := none },
       some (.unlockFailed (toString (if e = 0 then errnoEINVAL else e))))

/-- The three outcomes the spec allows a lock attempt: success, the
`errLocked` busy report, or `errLockFailed` wrapping an open/create
failure. -/
def threeOutcomes (r : Option LockError) : Prop :=
  r = none ∨ r = some .locked ∨ ∃ c, r = some (.lockFailed c)

/-- The windows lock-system oracle for a path whose UTF-16 conversion
fails (a path containing a NUL byte). -/
def winNulPathSys : WinLockSys :=
  { utf16Result := .error "invalid argument", createResult := .ok 7, lockResult := .ok }

/-!
## Theorems

Helper lemmas first, then for each claim its theorem (and witness or
counterexample).
-/

theorem fsLookup_fsErase (fs : List (String × List Nat)) (key : String) :
    fsLookup (fsErase fs key) key = none := by
  induction fs with
  | nil => rfl
  | cons kv rest ih =>
    obtain ⟨k, v⟩ := kv
    by_cases h : k = key
    · simpa [fsErase, h] using ih
    · simpa [fsErase, fsLookup, h] using ih

theorem fsLookup_fsInsert (fs : List (String × List Nat)) (key : String) (v : List Nat) :
    fsLookup (fsInsert fs key v) key = some v := by
  simp [fsInsert, fsLookup]

/-- C1: when the build service resolves an artifact and the cache entry
`<BinDir>/<artifact.ID>/k6` exists: if its sha256 digest equals the
artifact's checksum, `GetBinary` returns `Cached=true` with that path, the
artifact's dependencies and checksum, leaving the filesystem untouched and
ignoring the download oracle (no download is performed); if the digest
differs, the call does not error on the mismatch but behaves exactly as
the re-provisioning path, and a successful download writes its bytes over
the stale file. -/
theorem getBinary_cache_hit_and_stale_fallthrough
    (binDir : String) (hash : List Nat → String) (fs : List (String × List Nat))
    (art : Artifact) (dl : Except String (List Nat)) (c : List Nat)
    (hfound : fsLookup fs art.id = some c) :
    (hash c = art.checksum →
      getBinary binDir hash fs art dl =
        (fs, .ok { path := binPath binDir art.id, dependencies := art.dependencies,
                   checksum := art.checksum, cached := true, downloadURL := "" })) ∧
    (hash c ≠ art.checksum →
      getBinary binDir hash fs art dl = materialize binDir fs art dl ∧
      ∀ content, dl = .ok content →
        fsLookup (getBinary binDir hash fs art dl).1 art.id =
          some (overwriteBytes c content)) := by
  constructor
  · intro hck
    simp [getBinary, hfound, validateChecksum, hck]
  · intro hck
    have hvc : validateChecksum hash (some c) art.checksum = false := by
      simp [validateChecksum, hck]
    constructor
    · simp [getBinary, hfound, hvc]
    · intro content hdl
      simp [getBinary, hfound, hvc, materialize, hdl, fsLookup_fsInsert]

/-- C1 witness: a concrete cache hit and a concrete stale-file fall-through. -/
theorem getBinary_cache_hit_and_stale_fallthrough_witness :
    (getBinary "bin" (fun _ => "h") [("a", [1, 2])]
        { id := "a", url := "u", dependencies := [("k6", "v1")], platform := "p",
          checksum := "h" } (.error "boom") =
      ([("a", [1, 2])],
       .ok { path := "bin" ++ "/" ++ "a" ++ "/" ++ "k6",
             dependencies := [("k6", "v1")], checksum := "h", cached := true,
             downloadURL := "" })) ∧
    (fsLookup (getBinary "bin" (fun _ => "h") [("a", [1, 2])]
        { id := "a", url := "u", dependencies := [("k6", "v1")], platform := "p",
          checksum := "other" } (.ok [9])).1 "a" = some (overwriteBytes [1, 2] [9])) := by
  refine ⟨?_, ?_⟩
  · exact (getBinary_cache_hit_and_stale_fallthrough "bin" (fun _ => "h")
      [("a", [1, 2])]
      { id := "a", url := "u", dependencies := [("k6", "v1")], platform := "p",
        checksum := "h" } (.error "boom") [1, 2] rfl).1 rfl
  · exact ((getBinary_cache_hit_and_stale_fallthrough "bin" (fun _ => "h")
      [("a", [1, 2])]
      { id := "a", url := "u", dependencies := [("k6", "v1")], platform := "p",
        checksum := "other" } (.ok [9]) [1, 2] rfl).2 (by decide)).2 [9] rfl

/-- C2: a `GetBinary` call that reaches the download step (the entry is
absent, or present with a digest that does not match) and whose download
fails removes the whole entry directory before returning, and returns the
failure wrapped in `ErrDownload`; the resulting cache has no entry for the
artifact. -/
theorem getBinary_download_failure_cleanup
    (binDir : String) (hash : List Nat → String) (fs : List (String × List Nat))
    (art : Artifact) (e : String)
    (hmiss : fsLookup fs art.id = none ∨
      ∃ c, fsLookup fs art.id = some c ∧ hash c ≠ art.checksum) :
    getBinary binDir hash fs art (.error e) =
      (fsErase fs art.id, .error (.download e)) ∧
    fsLookup (getBinary binDir hash fs art (.error e)).1 art.id = none := by
  have hrun : getBinary binDir hash fs art (.error e) =
      (fsErase fs art.id, .error (.download e)) := by
    rcases hmiss with hnone | ⟨c, hc, hck⟩
    · simp [getBinary, hnone, materialize]
    · have hvc : validateChecksum hash (some c) art.checksum = false := by
        simp [validateChecksum, hck]
      simp [getBinary, hc, hvc, materialize]
  exact ⟨hrun, by rw [hrun]; exact fsLookup_fsErase fs art.id⟩

/-- C2 witness: a concrete failed download on a cache miss erases the entry. -/
theorem getBinary_download_failure_cleanup_witness :
    getBinary "bin" (fun _ => "h") [("other", [3])]
        { id := "a", url := "u", dependencies := [], platform := "p",
          checksum := "h" } (.error "status 500") =
      (fsErase [("other", [3])] "a", .error (.download "status 500")) := by
  exact (getBinary_download_failure_cleanup "bin" (fun _ => "h") [("other", [3])]
    { id := "a", url := "u", dependencies := [], platform := "p", checksum := "h" }
    "status 500" (Or.inl (by decide))).1

theorem attemptDownload_failingSource (bound : Nat) (msg : Nat → String) :
    ∀ (n i : Nat), attemptDownload (failingSource bound msg) i (n + 1) =
      if bound ≤ i + n then .ok () else .error (msg (i + n)) := by
  intro n
  induction n with
  | zero =>
    intro i
    by_cases h : bound ≤ i
    · have : ¬ i < bound := not_lt.mpr h
      simp [attemptDownload, failingSource, this, h]
    · have : i < bound := not_le.mp h
      simp [attemptDownload, failingSource, this, h]
  | succ n ih =>
    intro i
    by_cases h : i < bound
    · have hsrc : failingSource bound msg i = .error (msg i) := by
        simp [failingSource, h]
      have := ih (i + 1)
      simp only [attemptDownload, hsrc]
      rw [this]
      have harith : i + 1 + n = i + (n + 1) := by omega
      rw [harith]
    · have hsrc : failingSource bound msg i = .ok () := by
        simp [failingSource, h]
      have hle : bound ≤ i + (n + 1) := by omega
      simp [attemptDownload, hsrc, hle]

theorem effectiveRetries_pos (m : Int) : 0 < effectiveRetries m := by
  unfold effectiveRetries defaultDownloadRetries
  by_cases h : m ≤ 0
  · simp [h]
  · have : (0 : Int) < m := not_le.mp h
    simp [h]
    omega

theorem downloadWithRetries_failingSource_eq (m : Int) (n : Nat) (msg : Nat → String) :
    downloadWithRetries m (failingSource n msg) =
      if n < effectiveRetries m then .ok ()
      else .error (.download (msg (effectiveRetries m - 1))) := by
  obtain ⟨k, hk⟩ : ∃ k, effectiveRetries m = k + 1 :=
    ⟨effectiveRetries m - 1, by have := effectiveRetries_pos m; omega⟩
  unfold downloadWithRetries
  rw [hk, attemptDownload_failingSource n msg k 0]
  by_cases h : n ≤ 0 + k
  · have h1 : n ≤ k := by omega
    have h2 : n < k + 1 := by omega
    simp [h1, h2, hk]
  · have h1 : ¬ n ≤ k := by omega
    have h2 : ¬ n < k + 1 := by omega
    have h3 : k + 1 - 1 = k := by omega
    simp [h1, h2, hk, h3]

/-- C3: for a configured retry cap `m` and a source failing its first `n`
attempts and succeeding afterwards, the download succeeds iff
`n < effectiveRetries m`; when the attempts are exhausted the call fails
with the Download error wrapping the failure of the last attempt; a
non-positive configured cap means the built-in positive default is used,
and a positive cap `m` means exactly `m` attempts (so `m = 1` is a single
attempt with no retries). -/
theorem downloadWithRetries_retry_bound (m : Int) (n : Nat) (msg : Nat → String) :
    (downloadWithRetries m (failingSource n msg) = .ok () ↔ n < effectiveRetries m) ∧
    (effectiveRetries m ≤ n →
      downloadWithRetries m (failingSource n msg) =
        .error (.download (msg (effectiveRetries m - 1)))) ∧
    (m ≤ 0 → effectiveRetries m = defaultDownloadRetries) ∧
    (0 < m → effectiveRetries m = m.toNat) ∧
    0 < defaultDownloadRetries := by
  have heq := downloadWithRetries_failingSource_eq m n msg
  refine ⟨?_, ?_, ?_, ?_, ?_⟩
  · rw [heq]
    by_cases h : n < effectiveRetries m
    · simp [h]
    · simp [h]
  · intro hexh
    have h : ¬ n < effectiveRetries m := not_lt.mpr hexh
    rw [heq, if_neg h]
  · intro h
    simp [effectiveRetries, h]
  · intro h
    have : ¬ m ≤ 0 := not_le.mpr h
    simp [effectiveRetries, this]
  · decide

/-- C3 witness: with cap 1 a source failing twice fails immediately with the
first attempt's error; with a non-positive cap the default allows a source
failing twice to succeed. -/
theorem downloadWithRetries_retry_bound_witness :
    downloadWithRetries 1 (failingSource 2 (fun i => toString i)) =
      .error (.download (toString 0)) ∧
    downloadWithRetries 0 (failingSource 2 (fun i => toString i)) = .ok () := by
  constructor
  · have h := (downloadWithRetries_retry_bound 1 2 (fun i => toString i)).2.1
    have heff : effectiveRetries 1 = 1 := by decide
    rw [heff] at h
    simpa using h (by decide)
  · have h := (downloadWithRetries_retry_bound 0 2 (fun i => toString i)).1
    exact h.mpr (by decide)

/-- C5: with `HighWaterMark = 0` every `prune` call is a no-op returning
success: no matter what the directory enumeration or the removal calls
would return, the state is unchanged and nothing is deleted — the
directory is never even read, since the result does not depend on the
`readDir` oracle. -/
theorem prune_hwm_zero_noop (p : PrunerState) (now : Int)
    (readDir : Except String (List DirEntry)) (removeRes : String → Option String)
    (h : p.hwm = 0) :
    prune p now readDir removeRes = (p, [], .ok) := by
  simp [prune, h]

/-- C5 witness: a concrete no-op call, with a `readDir` oracle that would
fail if consulted. -/
theorem prune_hwm_zero_noop_witness :
    prune { hwm := 0, pruneInterval := 3600, lastPrune := 0 } 5000
        (.error "readdir should not run") (fun _ => some "remove should not run") =
      ({ hwm := 0, pruneInterval := 3600, lastPrune := 0 }, [], .ok) :=
  prune_hwm_zero_noop _ 5000 _ _ rfl

theorem prune_fst (p : PrunerState) (now : Int)
    (readDir : Except String (List DirEntry)) (removeRes : String → Option String)
    (h0 : ¬ p.hwm = 0) (hdue : ¬ now - p.lastPrune < p.pruneInterval) :
    (prune p now readDir removeRes).1 = { p with lastPrune := now } := by
  unfold prune
  rw [if_neg h0, if_neg hdue]
  cases readDir with
  | error e => rfl
  | ok entries =>
    simp only
    by_cases hle : (scanEntries entries).2.1 ≤ p.hwm
    · rw [if_pos hle]
    · rw [if_neg hle]
      by_cases hr : (pruneLoop p.hwm removeRes (scanEntries entries).2.1
          (sortByTime (scanEntries entries).2.2)).2.2
      · rw [if_pos hr]
      · rw [if_neg hr]

/-- C6: a `prune` call arriving within the cooldown window after a
completed prune is a no-op returning success, so of two calls separated by
less than the configured interval at most the first performs an eviction
pass.  The first call (outside the cooldown, with pruning enabled) records
its time in `lastPrune`; the second call, arriving less than
`pruneInterval` later, changes nothing, deletes nothing and succeeds. -/
theorem prune_cooldown (p : PrunerState) (t1 t2 : Int)
    (rd1 rd2 : Except String (List DirEntry)) (rm1 rm2 : String → Option String)
    (h0 : p.hwm ≠ 0) (hfirst : p.pruneInterval ≤ t1 - p.lastPrune)
    (hcool : t2 - t1 < p.pruneInterval) :
    (prune p t1 rd1 rm1).1.lastPrune = t1 ∧
    prune (prune p t1 rd1 rm1).1 t2 rd2 rm2 = ((prune p t1 rd1 rm1).1, [], .ok) := by
  have hfst : (prune p t1 rd1 rm1).1 = { p with lastPrune := t1 } :=
    prune_fst p t1 rd1 rm1 h0 (not_lt.mpr hfirst)
  refine ⟨by rw [hfst], ?_⟩
  rw [hfst]
  unfold prune
  rw [if_neg h0]
  rw [if_pos (show t2 - ({ p with lastPrune := t1 } : PrunerState).lastPrune <
    ({ p with lastPrune := t1 } : PrunerState).pruneInterval from hcool)]

/-- C6 witness: interval 3600, first prune at time 4000, second at 5000. -/
theorem prune_cooldown_witness :
    prune (prune { hwm := 1, pruneInterval := 3600, lastPrune := 0 } 4000
        (.ok []) (fun _ => none)).1 5000 (.ok []) (fun _ => none) =
      ((prune { hwm := 1, pruneInterval := 3600, lastPrune := 0 } 4000
        (.ok []) (fun _ => none)).1, [], .ok) :=
  (prune_cooldown { hwm := 1, pruneInterval := 3600, lastPrune := 0 } 4000 5000
    (.ok []) (.ok []) (fun _ => none) (fun _ => none)
    (by decide) (by decide) (by decide)).2

theorem sumSizes_nil : sumSizes [] = 0 := rfl

theorem sumSizes_cons (t : PruneTarget) (l : List PruneTarget) :
    sumSizes (t :: l) = t.size + sumSizes l := by
  simp [sumSizes]

theorem sumSizes_nonneg (l : List PruneTarget) (h : ∀ t ∈ l, 0 ≤ t.size) :
    0 ≤ sumSizes l := by
  induction l with
  | nil => simp [sumSizes_nil]
  | cons t rest ih =>
    rw [sumSizes_cons]
    have h1 := h t (by simp)
    have h2 := ih (fun s hs => h s (by simp [hs]))
    omega

theorem sortByTime_pairwise (l : List PruneTarget) :
    (sortByTime l).Pairwise timeLE :=
  List.sorted_insertionSort timeLE l

theorem sortByTime_perm (l : List PruneTarget) : List.Perm (sortByTime l) l :=
  List.perm_insertionSort timeLE l

theorem pruneLoop_deleted_sublist (hwm : Int) (rm : String → Option String) :
    ∀ (size : Int) (ts : List PruneTarget),
      (pruneLoop hwm rm size ts).1.Sublist ts := by
  intro size ts
  induction ts generalizing size with
  | nil => simp [pruneLoop]
  | cons t rest ih =>
    cases hrm : rm t.name with
    | some e =>
      simp only [pruneLoop, hrm]
      exact (ih size).cons t
    | none =>
      simp only [pruneLoop, hrm]
      by_cases hle : size - t.size ≤ hwm
      · simp only [hle, if_true]
        exact (List.nil_sublist rest).cons₂ t
      · simp only [hle, if_false]
        exact (ih (size - t.size)).cons₂ t

theorem pruneLoop_not_reached (hwm : Int) (rm : String → Option String) :
    ∀ (size : Int) (ts : List PruneTarget),
      (pruneLoop hwm rm size ts).2.2 = false →
      (pruneLoop hwm rm size ts).1 = ts.filter (fun t => (rm t.name).isNone) ∧
      (pruneLoop hwm rm size ts).2.1 = ts.filterMap (fun t => rm t.name) := by
  intro size ts
  induction ts generalizing size with
  | nil => simp [pruneLoop]
  | cons t rest ih =>
    intro hnr
    cases hrm : rm t.name with
    | some e =>
      rw [show (pruneLoop hwm rm size (t :: rest)) =
        ((pruneLoop hwm rm size rest).1, e :: (pruneLoop hwm rm size rest).2.1,
          (pruneLoop hwm rm size rest).2.2) from by simp [pruneLoop, hrm]] at hnr ⊢
      obtain ⟨h1, h2⟩ := ih size hnr
      refine ⟨?_, ?_⟩
      · rw [List.filter_cons, if_neg (by simp [hrm])]
        exact h1
      · rw [List.filterMap_cons, hrm]
        rw [h2]
    | none =>
      by_cases hle : size - t.size ≤ hwm
      · rw [show (pruneLoop hwm rm size (t :: rest)) =
          ([t], [], true) from by simp [pruneLoop, hrm, hle]] at hnr
        simp at hnr
      · rw [show (pruneLoop hwm rm size (t :: rest)) =
          (t :: (pruneLoop hwm rm (size - t.size) rest).1,
           (pruneLoop hwm rm (size - t.size) rest).2.1,
           (pruneLoop hwm rm (size - t.size) rest).2.2) from by
            simp [pruneLoop, hrm, hle]] at hnr ⊢
        obtain ⟨h1, h2⟩ := ih (size - t.size) hnr
        refine ⟨?_, ?_⟩
        · rw [List.filter_cons, if_pos (by simp [hrm])]
          rw [h1]
        · rw [List.filterMap_cons, hrm]
          exact h2

theorem pruneLoop_reached_le (hwm : Int) (rm : String → Option String) :
    ∀ (size : Int) (ts : List PruneTarget),
      (pruneLoop hwm rm size ts).2.2 = true →
      size - sumSizes (pruneLoop hwm rm size ts).1 ≤ hwm := by
  intro size ts
  induction ts generalizing size with
  | nil => simp [pruneLoop]
  | cons t rest ih =>
    intro hr
    cases hrm : rm t.name with
    | some e =>
      rw [show (pruneLoop hwm rm size (t :: rest)) =
        ((pruneLoop hwm rm size rest).1, e :: (pruneLoop hwm rm size rest).2.1,
          (pruneLoop hwm rm size rest).2.2) from by simp [pruneLoop, hrm]] at hr ⊢
      exact ih size hr
    | none =>
      by_cases hle : size - t.size ≤ hwm
      · rw [show (pruneLoop hwm rm size (t :: rest)) =
          ([t], [], true) from by simp [pruneLoop, hrm, hle]]
        rw [sumSizes_cons, sumSizes_nil]
        omega
      · rw [show (pruneLoop hwm rm size (t :: rest)) =
          (t :: (pruneLoop hwm rm (size - t.size) rest).1,
           (pruneLoop hwm rm (size - t.size) rest).2.1,
           (pruneLoop hwm rm (size - t.size) rest).2.2) from by
            simp [pruneLoop, hrm, hle]] at hr ⊢
        have := ih (size - t.size) hr
        rw [sumSizes_cons]
        omega

theorem pruneLoop_take (hwm : Int) (rm : String → Option String) :
    ∀ (size : Int) (ts : List PruneTarget), hwm < size →
      ∀ k, k < (pruneLoop hwm rm size ts).1.length →
        hwm < size - sumSizes ((pruneLoop hwm rm size ts).1.take k) := by
  intro size ts
  induction ts generalizing size with
  | nil =>
    intro _ k hk
    simp [pruneLoop] at hk
  | cons t rest ih =>
    intro hgt k hk
    cases hrm : rm t.name with
    | some e =>
      rw [show (pruneLoop hwm rm size (t :: rest)) =
        ((pruneLoop hwm rm size rest).1, e :: (pruneLoop hwm rm size rest).2.1,
          (pruneLoop hwm rm size rest).2.2) from by simp [pruneLoop, hrm]] at hk ⊢
      exact ih size hgt k hk
    | none =>
      by_cases hle : size - t.size ≤ hwm
      · rw [show (pruneLoop hwm rm size (t :: rest)) =
          ([t], [], true) from by simp [pruneLoop, hrm, hle]] at hk ⊢
        simp at hk
        subst hk
        simpa [sumSizes_nil] using hgt
      · rw [show (pruneLoop hwm rm size (t :: rest)) =
          (t :: (pruneLoop hwm rm (size - t.size) rest).1,
           (pruneLoop hwm rm (size - t.size) rest).2.1,
           (pruneLoop hwm rm (size - t.size) rest).2.2) from by
            simp [pruneLoop, hrm, hle]] at hk ⊢
        cases k with
        | zero => simpa [sumSizes_nil] using hgt
        | succ j =>
          simp only [List.length_cons, Nat.succ_lt_succ_iff] at hk
          have hgt' : hwm < size - t.size := by omega
          have := ih (size - t.size) hgt' j hk
          rw [List.take_succ_cons, sumSizes_cons]
          omega

theorem pruneLoop_not_reached_gt (hwm : Int) (rm : String → Option String) :
    ∀ (size : Int) (ts : List PruneTarget),
      (pruneLoop hwm rm size ts).2.2 = false → hwm < size →
      hwm < size - sumSizes (pruneLoop hwm rm size ts).1 := by
  intro size ts
  induction ts generalizing size with
  | nil =>
    intro _ hgt
    simpa [pruneLoop, sumSizes_nil] using hgt
  | cons t rest ih =>
    intro hnr hgt
    cases hrm : rm t.name with
    | some e =>
      rw [show (pruneLoop hwm rm size (t :: rest)) =
        ((pruneLoop hwm rm size rest).1, e :: (pruneLoop hwm rm size rest).2.1,
          (pruneLoop hwm rm size rest).2.2) from by simp [pruneLoop, hrm]] at hnr ⊢
      exact ih size hnr hgt
    | none =>
      by_cases hle : size - t.size ≤ hwm
      · rw [show (pruneLoop hwm rm size (t :: rest)) =
          ([t], [], true) from by simp [pruneLoop, hrm, hle]] at hnr
        simp at hnr
      · rw [show (pruneLoop hwm rm size (t :: rest)) =
          (t :: (pruneLoop hwm rm (size - t.size) rest).1,
           (pruneLoop hwm rm (size - t.size) rest).2.1,
           (pruneLoop hwm rm (size - t.size) rest).2.2) from by
            simp [pruneLoop, hrm, hle]] at hnr ⊢
        have hgt' : hwm < size - t.size := by omega
        have := ih (size - t.size) hnr hgt'
        rw [sumSizes_cons]
        omega

theorem scanEntries_size_eq (l : List DirEntry) :
    (scanEntries l).2.1 = sumSizes (scanEntries l).2.2 := by
  induction l with
  | nil => simp [scanEntries, sumSizes_nil]
  | cons e rest ih =>
    cases hdir : e.isDir with
    | false => simpa [scanEntries, hdir] using ih
    | true =>
      cases hstat : e.stat with
      | error err => simpa [scanEntries, hdir, hstat] using ih
      | ok q =>
        obtain ⟨sz, tm⟩ := q
        simp [scanEntries, hdir, hstat, sumSizes_cons, ih]

theorem scanEntries_targets_mem (l : List DirEntry) :
    ∀ t ∈ (scanEntries l).2.2, ∃ e ∈ l, e.isDir = true ∧ e.name = t.name ∧
      e.stat = .ok (t.size, t.timestamp) := by
  induction l with
  | nil => simp [scanEntries]
  | cons e rest ih =>
    intro t ht
    cases hdir : e.isDir with
    | false =>
      rw [show scanEntries (e :: rest) = scanEntries rest from by
        simp [scanEntries, hdir]] at ht
      obtain ⟨f, hf, hfd, hfn, hfs⟩ := ih t ht
      exact ⟨f, by simp [hf], hfd, hfn, hfs⟩
    | true =>
      cases hstat : e.stat with
      | error err =>
        rw [show scanEntries (e :: rest) =
          (err :: (scanEntries rest).1, (scanEntries rest).2.1,
            (scanEntries rest).2.2) from by simp [scanEntries, hdir, hstat]] at ht
        obtain ⟨f, hf, hfd, hfn, hfs⟩ := ih t ht
        exact ⟨f, by simp [hf], hfd, hfn, hfs⟩
      | ok q =>
        obtain ⟨sz, tm⟩ := q
        rw [show scanEntries (e :: rest) =
          ((scanEntries rest).1, sz + (scanEntries rest).2.1,
            { name := e.name, size := sz, timestamp := tm } :: (scanEntries rest).2.2)
            from by simp [scanEntries, hdir, hstat]] at ht
        rcases List.mem_cons.mp ht with heq | hmem
        · refine ⟨e, by simp, hdir, ?_, ?_⟩
          · rw [heq]
          · rw [heq, hstat]
        · obtain ⟨f, hf, hfd, hfn, hfs⟩ := ih t hmem
          exact ⟨f, by simp [hf], hfd, hfn, hfs⟩

theorem scanEntries_filter_isDir (l : List DirEntry) :
    scanEntries (l.filter (fun e => e.isDir)) = scanEntries l := by
  induction l with
  | nil => rfl
  | cons e rest ih =>
    cases hdir : e.isDir with
    | false =>
      rw [show scanEntries (e :: rest) = scanEntries rest from by
        simp [scanEntries, hdir]]
      rw [List.filter_cons, if_neg (by simp [hdir])]
      exact ih
    | true =>
      rw [List.filter_cons, if_pos (by simp [hdir])]
      cases hstat : e.stat with
      | error err =>
        rw [show scanEntries (e :: rest) =
          (err :: (scanEntries rest).1, (scanEntries rest).2.1,
            (scanEntries rest).2.2) from by simp [scanEntries, hdir, hstat]]
        rw [show scanEntries (e :: rest.filter (fun e => e.isDir)) =
          (err :: (scanEntries (rest.filter (fun e => e.isDir))).1,
            (scanEntries (rest.filter (fun e => e.isDir))).2.1,
            (scanEntries (rest.filter (fun e => e.isDir))).2.2) from by
          simp [scanEntries, hdir, hstat]]
        rw [ih]
      | ok q =>
        obtain ⟨sz, tm⟩ := q
        rw [show scanEntries (e :: rest) =
          ((scanEntries rest).1, sz + (scanEntries rest).2.1,
            { name := e.name, size := sz, timestamp := tm } :: (scanEntries rest).2.2)
            from by simp [scanEntries, hdir, hstat]]
        rw [show scanEntries (e :: rest.filter (fun e => e.isDir)) =
          ((scanEntries (rest.filter (fun e => e.isDir))).1,
            sz + (scanEntries (rest.filter (fun e => e.isDir))).2.1,
            { name := e.name, size := sz, timestamp := tm } ::
              (scanEntries (rest.filter (fun e => e.isDir))).2.2) from by
          simp [scanEntries, hdir, hstat]]
        rw [ih]

theorem prune_run_eq (p : PrunerState) (now : Int) (entries : List DirEntry)
    (removeRes : String → Option String)
    (h0 : ¬ p.hwm = 0) (hdue : ¬ now - p.lastPrune < p.pruneInterval) :
    prune p now (.ok entries) removeRes =
      (if (scanEntries entries).2.1 ≤ p.hwm then
        ({ p with lastPrune := now }, ([] : List PruneTarget), PruneResult.ok)
      else if (pruneLoop p.hwm removeRes (scanEntries entries).2.1
          (sortByTime (scanEntries entries).2.2)).2.2 then
        ({ p with lastPrune := now },
         (pruneLoop p.hwm removeRes (scanEntries entries).2.1
            (sortByTime (scanEntries entries).2.2)).1, PruneResult.ok)
      else
        ({ p with lastPrune := now },
         (pruneLoop p.hwm removeRes (scanEntries entries).2.1
            (sortByTime (scanEntries entries).2.2)).1,
         PruneResult.cannotPrune ((scanEntries entries).1 ++
            (pruneLoop p.hwm removeRes (scanEntries entries).2.1
              (sortByTime (scanEntries entries).2.2)).2.1))) := by
  unfold prune
  rw [if_neg h0, if_neg hdue]

/-- C4: an enabled, due prune pass over entries with scanned total size
`S`, collected stat errors and candidates: if `S` is at most the mark
nothing is deleted and the call succeeds; if `S` exceeds the mark, the
deleted entries form a sublist of the candidates sorted by ascending
timestamp (so deletion is oldest first), before every deletion the
running total still exceeded the mark (deletion stops as soon as the mark
is reached), a successful call ends with the total at or below the mark,
and a failing call has deleted exactly the candidates whose removal
succeeded (partial progress kept), ends still above the mark, and reports
the aggregate error collecting every stat failure and every removal
failure. -/
theorem prune_lru_pass (p : PrunerState) (now : Int) (entries : List DirEntry)
    (removeRes : String → Option String)
    (hpos : 0 < p.hwm) (hdue : p.pruneInterval ≤ now - p.lastPrune) :
    ((scanEntries entries).2.1 ≤ p.hwm →
      prune p now (.ok entries) removeRes = ({ p with lastPrune := now }, [], .ok)) ∧
    (p.hwm < (scanEntries entries).2.1 →
      (prune p now (.ok entries) removeRes).2.1.Sublist
          (sortByTime (scanEntries entries).2.2) ∧
      (prune p now (.ok entries) removeRes).2.1.Pairwise timeLE ∧
      ((prune p now (.ok entries) removeRes).2.2 = .ok →
        (scanEntries entries).2.1 -
            sumSizes (prune p now (.ok entries) removeRes).2.1 ≤ p.hwm) ∧
      (∀ k, k < (prune p now (.ok entries) removeRes).2.1.length →
        p.hwm < (scanEntries entries).2.1 -
            sumSizes ((prune p now (.ok entries) removeRes).2.1.take k)) ∧
      (∀ errs, (prune p now (.ok entries) removeRes).2.2 = .cannotPrune errs →
        (prune p now (.ok entries) removeRes).2.1 =
          (sortByTime (scanEntries entries).2.2).filter
            (fun t => (removeRes t.name).isNone) ∧
        errs = (scanEntries entries).1 ++
          (sortByTime (scanEntries entries).2.2).filterMap (fun t => removeRes t.name) ∧
        p.hwm < (scanEntries entries).2.1 -
            sumSizes (prune p now (.ok entries) removeRes).2.1)) := by
  have h0 : ¬ p.hwm = 0 := by omega
  have hdue' : ¬ now - p.lastPrune < p.pruneInterval := not_lt.mpr hdue
  have hrun := prune_run_eq p now entries removeRes h0 hdue'
  constructor
  · intro hle
    rw [hrun, if_pos hle]
  · intro hgt
    have hle : ¬ (scanEntries entries).2.1 ≤ p.hwm := not_le.mpr hgt
    by_cases hr : (pruneLoop p.hwm removeRes (scanEntries entries).2.1
        (sortByTime (scanEntries entries).2.2)).2.2
    · rw [hrun, if_neg hle, if_pos hr]
      refine ⟨pruneLoop_deleted_sublist _ _ _ _, ?_, ?_, ?_, ?_⟩
      · exact (sortByTime_pairwise _).sublist (pruneLoop_deleted_sublist _ _ _ _)
      · intro _
        exact pruneLoop_reached_le p.hwm removeRes _ _ hr
      · intro k hk
        exact pruneLoop_take p.hwm removeRes _ _ hgt k hk
      · intro errs herrs
        cases herrs
    · rw [hrun, if_neg hle, if_neg hr]
      obtain ⟨hdel, herr⟩ := pruneLoop_not_reached p.hwm removeRes
        (scanEntries entries).2.1 (sortByTime (scanEntries entries).2.2)
        (by simpa using hr)
      refine ⟨pruneLoop_deleted_sublist _ _ _ _, ?_, ?_, ?_, ?_⟩
      · exact (sortByTime_pairwise _).sublist (pruneLoop_deleted_sublist _ _ _ _)
      · intro hok
        cases hok
      · intro k hk
        exact pruneLoop_take p.hwm removeRes _ _ hgt k hk
      · intro errs herrs
        refine ⟨hdel, ?_, ?_⟩
        · cases herrs
          rw [herr]
        · exact pruneLoop_not_reached_gt p.hwm removeRes _ _ (by simpa using hr) hgt

/-- C4 witness: with mark 25, three all-removable candidates of sizes 10,
20, 30 and timestamps 3, 2, 1, an enabled due pass deletes a sorted
sublist whose deletions each happened above the mark and which ends at or
below the mark; a single 10-byte candidate (total ≤ mark) is left alone. -/
theorem prune_lru_pass_witness :
    ((prune { hwm := 25, pruneInterval := 60, lastPrune := 0 } 100
        (.ok [{ name := "a", isDir := true, stat := .ok (10, 3) },
              { name := "b", isDir := true, stat := .ok (20, 2) },
              { name := "c", isDir := true, stat := .ok (30, 1) }])
        (fun _ => none)).2.2 = .ok →
      (60 : Int) -
        sumSizes (prune { hwm := 25, pruneInterval := 60, lastPrune := 0 } 100
          (.ok [{ name := "a", isDir := true, stat := .ok (10, 3) },
                { name := "b", isDir := true, stat := .ok (20, 2) },
                { name := "c", isDir := true, stat := .ok (30, 1) }])
          (fun _ => none)).2.1 ≤ 25) ∧
    prune { hwm := 25, pruneInterval := 60, lastPrune := 0 } 100
        (.ok [{ name := "a", isDir := true, stat := .ok (10, 3) }])
        (fun _ => none) =
      ({ hwm := 25, pruneInterval := 60, lastPrune := 100 }, [], .ok) := by
  constructor
  · exact ((prune_lru_pass { hwm := 25, pruneInterval := 60, lastPrune := 0 } 100
      [{ name := "a", isDir := true, stat := .ok (10, 3) },
       { name := "b", isDir := true, stat := .ok (20, 2) },
       { name := "c", isDir := true, stat := .ok (30, 1) }]
      (fun _ => none) (by decide) (by decide)).2 (by decide)).2.2.1
  · exact (prune_lru_pass { hwm := 25, pruneInterval := 60, lastPrune := 0 } 100
      [{ name := "a", isDir := true, stat := .ok (10, 3) }]
      (fun _ => none) (by decide) (by decide)).1 (by decide)

theorem sumSizes_perm (l1 l2 : List PruneTarget) (h : List.Perm l1 l2) :
    sumSizes l1 = sumSizes l2 := by
  unfold sumSizes
  exact (h.map (·.size)).sum_eq

theorem pruneLoop_all_deleted (hwm : Int) (rm : String → Option String)
    (hneg : hwm < 0) (hrm : ∀ s, rm s = none) :
    ∀ (size : Int) (ts : List PruneTarget), (∀ t ∈ ts, 0 ≤ t.size) →
      sumSizes ts ≤ size → pruneLoop hwm rm size ts = (ts, [], false) := by
  intro size ts
  induction ts generalizing size with
  | nil => intro _ _; rfl
  | cons t rest ih =>
    intro hnn hinv
    have hrmt : rm t.name = none := hrm t.name
    have hrest : 0 ≤ sumSizes rest :=
      sumSizes_nonneg rest (fun s hs => hnn s (by simp [hs]))
    rw [sumSizes_cons] at hinv
    have hle : ¬ size - t.size ≤ hwm := by omega
    rw [show pruneLoop hwm rm size (t :: rest) =
      (t :: (pruneLoop hwm rm (size - t.size) rest).1,
       (pruneLoop hwm rm (size - t.size) rest).2.1,
       (pruneLoop hwm rm (size - t.size) rest).2.2) from by
        simp [pruneLoop, hrmt, hle]]
    rw [ih (size - t.size) (fun s hs => hnn s (by simp [hs])) (by omega)]

/-- C9: with a strictly negative `HighWaterMark`, an enabled due prune
pass over entries whose stat sizes are non-negative and whose removals
all succeed is not a no-op: since the non-negative total can never reach
the negative mark, it deletes every candidate, oldest first (the whole
sorted candidate list), and still returns the `ErrPruningCache` aggregate
error; meanwhile `touch` on the same pruner leaves the filesystem
unchanged, because it only acts when the high-water-mark is strictly
positive. -/
theorem prune_negative_hwm (p : PrunerState) (now : Int) (entries : List DirEntry)
    (removeRes : String → Option String) (binaryPath : String)
    (hneg : p.hwm < 0) (hdue : p.pruneInterval ≤ now - p.lastPrune)
    (hsizes : ∀ e ∈ entries, ∀ sz tm, e.stat = .ok (sz, tm) → 0 ≤ sz)
    (hremove : ∀ s, removeRes s = none) :
    prune p now (.ok entries) removeRes =
      ({ p with lastPrune := now }, sortByTime (scanEntries entries).2.2,
       .cannotPrune (scanEntries entries).1) ∧
    touch p binaryPath = none := by
  have h0 : ¬ p.hwm = 0 := by omega
  have hdue' : ¬ now - p.lastPrune < p.pruneInterval := not_lt.mpr hdue
  have htargets : ∀ t ∈ (scanEntries entries).2.2, 0 ≤ t.size := by
    intro t ht
    obtain ⟨e, he, _, _, hstat⟩ := scanEntries_targets_mem entries t ht
    exact hsizes e he t.size t.timestamp hstat
  have hsorted : ∀ t ∈ sortByTime (scanEntries entries).2.2, 0 ≤ t.size := by
    intro t ht
    exact htargets t ((sortByTime_perm _).mem_iff.mp ht)
  have hsum : sumSizes (sortByTime (scanEntries entries).2.2) =
      sumSizes (scanEntries entries).2.2 :=
    sumSizes_perm _ _ (sortByTime_perm _)
  have hsize : (scanEntries entries).2.1 = sumSizes (scanEntries entries).2.2 :=
    scanEntries_size_eq entries
  have hnonneg : 0 ≤ (scanEntries entries).2.1 := by
    rw [hsize]
    exact sumSizes_nonneg _ htargets
  have hgt : ¬ (scanEntries entries).2.1 ≤ p.hwm := by omega
  have hloop := pruneLoop_all_deleted p.hwm removeRes hneg hremove
    (scanEntries entries).2.1 (sortByTime (scanEntries entries).2.2)
    hsorted (by omega)
  refine ⟨?_, ?_⟩
  · rw [prune_run_eq p now entries removeRes h0 hdue', if_neg hgt, hloop]
    simp
  · simp only [touch, if_neg (show ¬ 0 < p.hwm by omega)]

/-- C9 witness: mark -1, one 10-byte candidate: the pass deletes it and
reports the aggregate error; `touch` does nothing. -/
theorem prune_negative_hwm_witness :
    (prune { hwm := -1, pruneInterval := 60, lastPrune := 0 } 100
        (.ok [{ name := "a", isDir := true, stat := .ok (10, 3) }])
        (fun _ => none) =
      ({ hwm := -1, pruneInterval := 60, lastPrune := 100 },
       sortByTime (scanEntries
         [{ name := "a", isDir := true, stat := .ok (10, 3) }]).2.2,
       .cannotPrune (scanEntries
         [{ name := "a", isDir := true, stat := .ok (10, 3) }]).1)) ∧
    touch { hwm := -1, pruneInterval := 60, lastPrune := 0 } "bin/a/k6" = none :=
  prune_negative_hwm { hwm := -1, pruneInterval := 60, lastPrune := 0 } 100
    [{ name := "a", isDir := true, stat := .ok (10, 3) }] (fun _ => none)
    "bin/a/k6" (by decide) (by decide)
    (by
      intro e he sz tm hstat
      rw [List.mem_singleton] at he
      subst he
      simp only [Except.ok.injEq, Prod.mk.injEq] at hstat
      omega)
    (fun _ => rfl)

theorem prune_deleted_sublist (p : PrunerState) (now : Int)
    (entries : List DirEntry) (removeRes : String → Option String) :
    (prune p now (.ok entries) removeRes).2.1.Sublist
      (sortByTime (scanEntries entries).2.2) := by
  by_cases h0 : p.hwm = 0
  · rw [show prune p now (.ok entries) removeRes = (p, [], .ok) from by
      simp [prune, h0]]
    exact List.nil_sublist _
  · by_cases hdue : now - p.lastPrune < p.pruneInterval
    · rw [show prune p now (.ok entries) removeRes = (p, [], .ok) from by
        unfold prune
        rw [if_neg h0, if_pos hdue]]
      exact List.nil_sublist _
    · rw [prune_run_eq p now entries removeRes h0 hdue]
      by_cases hle : (scanEntries entries).2.1 ≤ p.hwm
      · rw [if_pos hle]
        exact List.nil_sublist _
      · rw [if_neg hle]
        by_cases hr : (pruneLoop p.hwm removeRes (scanEntries entries).2.1
            (sortByTime (scanEntries entries).2.2)).2.2
        · rw [if_pos hr]
          exact pruneLoop_deleted_sublist _ _ _ _
        · rw [if_neg hr]
          exact pruneLoop_deleted_sublist _ _ _ _

/-- C10: every prune pass considers only subdirectories of the cache
directory: entries that are not directories are excluded from the scanned
size and candidates (scanning the directory entries filtered to
directories gives the same stat errors, size and candidates), every
deleted candidate corresponds to a directory entry, and — since the lock
file `k6provider.lock` kept by the directory lock is a plain file, not a
directory — no deleted candidate is named `k6provider.lock`: pruning
preserves the lock file. -/
theorem prune_only_directories (p : PrunerState) (now : Int)
    (entries : List DirEntry) (removeRes : String → Option String)
    (hlock : ∀ e ∈ entries, e.name = lockFileName → e.isDir = false) :
    scanEntries (entries.filter (fun e => e.isDir)) = scanEntries entries ∧
    (∀ t ∈ (prune p now (.ok entries) removeRes).2.1,
      ∃ e ∈ entries, e.isDir = true ∧ e.name = t.name) ∧
    (∀ t ∈ (prune p now (.ok entries) removeRes).2.1, t.name ≠ lockFileName) := by
  have hmem : ∀ t ∈ (prune p now (.ok entries) removeRes).2.1,
      ∃ e ∈ entries, e.isDir = true ∧ e.name = t.name := by
    intro t ht
    have hsorted : t ∈ sortByTime (scanEntries entries).2.2 :=
      (prune_deleted_sublist p now entries removeRes).subset ht
    have htarget : t ∈ (scanEntries entries).2.2 :=
      (sortByTime_perm _).mem_iff.mp hsorted
    obtain ⟨e, he, hd, hn, _⟩ := scanEntries_targets_mem entries t htarget
    exact ⟨e, he, hd, hn⟩
  refine ⟨scanEntries_filter_isDir entries, hmem, ?_⟩
  intro t ht hname
  obtain ⟨e, he, hd, hn⟩ := hmem t ht
  have := hlock e he (by rw [hn, hname])
  rw [hd] at this
  cases this

/-- C10 witness: a cache directory holding the plain lock file and one
entry directory: filtering to directories changes nothing about the scan. -/
theorem prune_only_directories_witness :
    scanEntries
        ([{ name := "k6provider.lock", isDir := false, stat := .error "not a dir" },
          { name := "a", isDir := true, stat := .ok (10, 3) }].filter
          (fun e => e.isDir)) =
      scanEntries
        [{ name := "k6provider.lock", isDir := false, stat := .error "not a dir" },
         { name := "a", isDir := true, stat := .ok (10, 3) }] :=
  (prune_only_directories { hwm := 1, pruneInterval := 60, lastPrune := 0 } 100
    [{ name := "k6provider.lock", isDir := false, stat := .error "not a dir" },
     { name := "a", isDir := true, stat := .ok (10, 3) }]
    (fun _ => none) (by decide)).1

/-- C7: on both platform backends, `lock` on a handle that already holds
the lock succeeds and changes nothing (no OS call outcome matters), and
`unlock` on a handle that does not hold the lock succeeds and changes
nothing. -/
theorem lock_unlock_idempotent :
    (∀ (m : DirLock) (sys : UnixLockSys), m.fd ≠ -1 →
      dirLockLock m sys = (m, none)) ∧
    (∀ (m : DirLock) (flockUn : Except String Unit), m.fd = -1 →
      dirLockUnlock m flockUn = (m, none)) ∧
    (∀ (m : FileLock) (sys : WinLockSys) (h : Int), m.handle = some h →
      fileLockLock m sys = (m, none)) ∧
    (∀ (m : FileLock) (c : WinLockCall), m.handle = none →
      fileLockUnlock m c = (m, none)) := by
  refine ⟨?_, ?_, ?_, ?_⟩
  · intro m sys h
    simp [dirLockLock, h]
  · intro m flockUn h
    simp [dirLockUnlock, h]
  · intro m sys h hh
    simp [fileLockLock, hh]
  · intro m c h
    simp [fileLockUnlock, h]

/-- C7 witness: a held unix handle locked again under a failing OS oracle,
an unheld unix handle unlocked under a failing flock, and the windows
counterparts. -/
theorem lock_unlock_idempotent_witness :
    dirLockLock { lockFile := "d/k6provider.lock", fd := 5 }
        { openResult := .error "enoent", flockResult := .fail "ebadf" } =
      ({ lockFile := "d/k6provider.lock", fd := 5 }, none) ∧
    dirLockUnlock { lockFile := "d/k6provider.lock", fd := -1 } (.error "ebadf") =
      ({ lockFile := "d/k6provider.lock", fd := -1 }, none) ∧
    fileLockLock { lockFile := "d/k6provider.lock", handle := some 3 }
        { utf16Result := .error "bad", createResult := .error "denied",
          lockResult := .failErrno 5 } =
      ({ lockFile := "d/k6provider.lock", handle := some 3 }, none) ∧
    fileLockUnlock { lockFile := "d/k6provider.lock", handle := none }
        (.failErrno 5) =
      ({ lockFile := "d/k6provider.lock", handle := none }, none) :=
  ⟨lock_unlock_idempotent.1 _ _ (by decide),
   lock_unlock_idempotent.2.1 _ _ rfl,
   lock_unlock_idempotent.2.2.1 _ _ 3 rfl,
   lock_unlock_idempotent.2.2.2 _ _ rfl⟩

/-- C8 counterexample: on the windows backend, a lock attempt whose path
cannot be converted to UTF-16 returns the raw conversion error untyped
(`// TODO return a typed error` in the source), which is none of the
three claimed outcomes (success, `errLocked`, `errLockFailed`). -/
theorem fileLockLock_untyped_outcome :
    ¬ threeOutcomes
      (fileLockLock { lockFile := "cache/k6provider.lock", handle := none }
        winNulPathSys).2 := by
  intro h
  have heval : (fileLockLock { lockFile := "cache/k6provider.lock", handle := none }
      winNulPathSys).2 = some (.untyped "invalid argument") := rfl
  rw [heval] at h
  rcases h with h | h | ⟨c, h⟩
  · cases h
  · simp at h
  · simp at h

/-- C8 (amended): on the unix backend every lock attempt from an unheld
handle has exactly one of the three outcomes, classified correctly: an
open failure is `errLockFailed` wrapping the cause, `EWOULDBLOCK` from the
non-blocking flock (another holder) is `errLocked` returned at once, any
other flock failure is `errLockFailed`, and a successful flock acquires
the lock; on the windows backend the same holds whenever the lock path
converts to UTF-16 (otherwise the raw conversion error is returned
untyped): a `CreateFile` failure is `errLockFailed`, a `LockFile` failure
with error code 33 is `errLocked`, any other `LockFile` failure is
`errLockFailed`, and a successful `LockFile` acquires the lock. -/
theorem lock_attempt_classification (m : DirLock) (sys : UnixLockSys)
    (w : FileLock) (wsys : WinLockSys)
    (hm : m.fd = -1) (hw : w.handle = none) (hutf : wsys.utf16Result = .ok ()) :
    threeOutcomes (dirLockLock m sys).2 ∧
    (∀ e, sys.openResult = .error e →
      dirLockLock m sys = (m, some (.lockFailed e))) ∧
    (∀ fd, sys.openResult = .ok fd → sys.flockResult = .wouldBlock →
      dirLockLock m sys = (m, some .locked)) ∧
    (∀ fd e, sys.openResult = .ok fd → sys.flockResult = .fail e →
      dirLockLock m sys = (m, some (.lockFailed e))) ∧
    (∀ fd, sys.openResult = .ok fd → sys.flockResult = .ok →
      dirLockLock m sys = ({ m with fd := fd }, none)) ∧
    threeOutcomes (fileLockLock w wsys).2 ∧
    (∀ e, wsys.createResult = .error e →
      fileLockLock w wsys = (w, some (.lockFailed e))) ∧
    (∀ h, wsys.createResult = .ok h → wsys.lockResult = .failErrno errnoLocked →
      fileLockLock w wsys = (w, some .locked)) ∧
    (∀ h e, wsys.createResult = .ok h → wsys.lockResult = .failErrno e →
      e ≠ errnoLocked →
      fileLockLock w wsys =
        (w, some (.lockFailed (toString (if e = 0 then errnoEINVAL else e))))) ∧
    (∀ h, wsys.createResult = .ok h → wsys.lockResult = .ok →
      fileLockLock w wsys = ({ w with handle := some h }, none)) := by
  have hne : ¬ m.fd ≠ -1 := by simp [hm]
  refine ⟨?_, ?_, ?_, ?_, ?_, ?_, ?_, ?_, ?_, ?_⟩
  · cases hop : sys.openResult with
    | error e =>
      right; right
      exact ⟨e, by simp [dirLockLock, hne, hop]⟩
    | ok fd =>
      cases hfl : sys.flockResult with
      | ok =>
        left
        simp [dirLockLock, hne, hop, hfl]
      | wouldBlock =>
        right; left
        simp [dirLockLock, hne, hop, hfl]
      | fail e =>
        right; right
        exact ⟨e, by simp [dirLockLock, hne, hop, hfl]⟩
  · intro e hop
    simp [dirLockLock, hne, hop]
  · intro fd hop hfl
    simp [dirLockLock, hne, hop, hfl]
  · intro fd e hop hfl
    simp [dirLockLock, hne, hop, hfl]
  · intro fd hop hfl
    simp [dirLockLock, hne, hop, hfl]
  · cases hcr : wsys.createResult with
    | error e =>
      right; right
      exact ⟨e, by simp [fileLockLock, hw, hutf, hcr]⟩
    | ok h =>
      cases hlk : wsys.lockResult with
      | ok =>
        left
        simp [fileLockLock, hw, hutf, hcr, hlk]
      | failErrno e =>
        by_cases he : e = errnoLocked
        · right; left
          simp [fileLockLock, hw, hutf, hcr, hlk, he]
        · right; right
          exact ⟨toString (if e = 0 then errnoEINVAL else e),
            by simp [fileLockLock, hw, hutf, hcr, hlk, he]⟩
  · intro e hcr
    simp [fileLockLock, hw, hutf, hcr]
  · intro h hcr hlk
    simp [fileLockLock, hw, hutf, hcr, hlk]
  · intro h e hcr hlk he
    simp [fileLockLock, hw, hutf, hcr, hlk, he]
  · intro h hcr hlk
    simp [fileLockLock, hw, hutf, hcr, hlk]

/-- C8 witness (amended): a concrete unheld unix handle whose lock file
cannot be opened gets `errLockFailed`, and a concrete unheld windows
handle whose `LockFile` call fails with error code 33 gets `errLocked`. -/
theorem lock_attempt_classification_witness :
    dirLockLock { lockFile := "/nodir/k6provider.lock", fd := -1 }
        { openResult := .error "enoent", flockResult := .ok } =
      ({ lockFile := "/nodir/k6provider.lock", fd := -1 },
       some (.lockFailed "enoent")) ∧
    fileLockLock { lockFile := "d/k6provider.lock", handle := none }
        { utf16Result := .ok (), createResult := .ok 9,
          lockResult := .failErrno 33 } =
      ({ lockFile := "d/k6provider.lock", handle := none }, some .locked) :=
  ⟨(lock_attempt_classification
      { lockFile := "/nodir/k6provider.lock", fd := -1 }
      { openResult := .error "enoent", flockResult := .ok }
      { lockFile := "d/k6provider.lock", handle := none }
      { utf16Result := .ok (), createResult := .ok 9, lockResult := .failErrno 33 }
      rfl rfl rfl).2.1 "enoent" rfl,
   (lock_attempt_classification
      { lockFile := "/nodir/k6provider.lock", fd := -1 }
      { openResult := .error "enoent", flockResult := .ok }
      { lockFile := "d/k6provider.lock", handle := none }
      { utf16Result := .ok (), createResult := .ok 9, lockResult := .failErrno 33 }
      rfl rfl rfl).2.2.2.2.2.2.2.1 9 rfl rfl⟩

end K6Provider
